import Mathlib

/-!
Verification of the path-conformance engine of `earchive` against its
natural-language specification.

The development shallowly embeds the code of
`src/earchive/utils/path.py` (the `FastPath` path value),
`src/earchive/commands/check/utils.py` (diagnostic walk and classification) and
`src/earchive/commands/check/check.py` (safe rename and the three fix passes).
Python strings are modelled as Lean `String` (a wrapped `List Char`); machine
integers are `Int`/`Nat` (Python integers are unbounded, so no wrap-around is
needed); fallible operations (OS errors, `int()` parse failures) return
`Except`/`Option`.
-/

namespace Earchive

/-! ### Python-style string primitives

Lean's own `String` functions are implemented with well-founded recursion and
do not always reduce in the kernel, so the string operations used by the
source (`str.split`, `str.strip`, slicing) are re-implemented structurally on
`List Char` with Python semantics.
-/

/-- Python `s.split(sep)` for a one-character separator: splits at every
occurrence, keeping empty groups (`"".split(c) == [""]`). -/
def pySplit (sep : Char) : List Char → List (List Char)
  | [] => [[]]
  | c :: cs =>
    if c = sep then [] :: pySplit sep cs
    else
      match pySplit sep cs with
      | [] => [[c]]
      | g :: gs => (c :: g) :: gs

/-- Python `s.strip(c)` for a one-character argument: removes every leading and
trailing occurrence of `c`. -/
def pyStrip (c : Char) (cs : List Char) : List Char :=
  ((cs.dropWhile (· = c)).reverse.dropWhile (· = c)).reverse

/-- Python `"/".join(parts)` at the character level. -/
def joinChar (sep : Char) : List (List Char) → List Char
  | [] => []
  | [s] => s
  | s :: rest => s ++ sep :: joinChar sep rest

/-- The `if path.startswith("./"): path = path[2:]` step of
`FastPath.get_segments`. -/
def dropDotSlash (cs : List Char) : List Char :=
  match cs with
  | a :: b :: rest => if a = '.' ∧ b = '/' then rest else a :: b :: rest
  | short => short

/-- `a` is a leading run of `b` (used to model Python `str.startswith`). -/
def listLead : List Char → List Char → Bool
  | [], _ => true
  | _ :: _, [] => false
  | a :: as, b :: bs => a = b && listLead as bs

/-- Splits a file name at its last dot: `rfind(".")` of
`FastPath.stem`/`FastPath.suffix`. Returns `none` when the name has no dot,
otherwise `some (stem, suffix)` with the suffix starting at the last dot
(inclusive). -/
def splitExtAux : List Char → Option (List Char × List Char)
  | [] => none
  | c :: cs =>
    match splitExtAux cs with
    | some (st, sf) => some (c :: st, sf)
    | none => if c = '.' then some ([], '.' :: cs) else none

/-- Name without its trailing extension (`name[:dot_idx]`, or the whole name
when it has no dot) — the `stem` computation of `src/earchive/utils/path.py`. -/
def stemOfName (name : String) : String :=
  match splitExtAux name.data with
  | some (st, _) => String.mk st
  | none => name

/-- Trailing extension including the dot (`name[dot_idx:]`, or `""` when the
name has no dot) — the `suffix` computation of `src/earchive/utils/path.py`. -/
def suffixOfName (name : String) : String :=
  match splitExtAux name.data with
  | some (_, sf) => String.mk sf
  | none => ""

/-! ### FastPath (`src/earchive/utils/path.py`) -/

/-- The `FastPath` path value of `src/earchive/utils/path.py`: a sequence of
segments plus an `absolute` flag (the source field `_absolute`). The source
class carries no target-platform tag. -/
structure FastPath where
  segments : List String
  absolute : Bool
deriving DecidableEq

/-- `FastPath.get_segments`: drop a leading `"./"`, strip slashes at both ends,
split on `"/"`, and keep the parts that are neither empty nor `"."`. -/
def get_segments (path : String) : List String :=
  ((pySplit '/' (pyStrip '/' (dropDotSlash path.data))).map (fun cs => String.mk cs)).filter
    (fun s => s != "" && s != ".")

/-- `FastPath.from_str`. The Python code tests `path[0] == "/"` (which assumes
a nonempty argument); `head?` renders that test. -/
def FastPath.from_str (path : String) : FastPath :=
  if path = "/" then ⟨[], true⟩
  else if path = "." then ⟨[], false⟩
  else ⟨get_segments path, path.data.head? = some '/'⟩

/-- `FastPath.str`: `"/"` or `"."` for the empty path, otherwise the segments
joined with `"/"`, led by `"/"` or `"./"`. -/
def FastPath.str (p : FastPath) : String :=
  if p.segments = [] then (if p.absolute then "/" else ".")
  else String.mk ((if p.absolute then ['/'] else ['.', '/']) ++ joinChar '/' (p.segments.map String.data))

/-- `FastPath.__truediv__`: joining with `"/"` resets to the absolute root;
otherwise the normalized segments of the operand are appended. -/
def FastPath.div (p : FastPath) (other : String) : FastPath :=
  if other = "/" then ⟨[], true⟩
  else ⟨p.segments ++ get_segments other, p.absolute⟩

/-- `FastPath.__eq__`: structural comparison of the `segments` sequences only
(the `absolute` flag is not compared, and there is no platform component). -/
def FastPath.pyEq (p q : FastPath) : Bool :=
  p.segments = q.segments

/-- The tuple fed to `hash` by `FastPath.__hash__`:
`hash((self.segments, self._absolute))`. -/
def FastPath.hashKey (p : FastPath) : List String × Bool :=
  (p.segments, p.absolute)

/-- `FastPath.parent`: all segments but the last. -/
def FastPath.parent (p : FastPath) : FastPath :=
  ⟨p.segments.dropLast, p.absolute⟩

/-- `FastPath.parents`: proper ancestors from the nearest parent down to the
(absolute or relative) root. -/
def parentsAux (absolute : Bool) : List String → List FastPath
  | [] => [⟨[], absolute⟩]
  | s :: rest =>
    ⟨(s :: rest), absolute⟩ :: parentsAux absolute rest

/-- `FastPath.parents` as a list (the source yields the same paths lazily):
`segments[:-1]`, then repeatedly pop the last segment, ending at the root. -/
def FastPath.parents (p : FastPath) : List FastPath :=
  (parentsAux p.absolute p.segments.dropLast.reverse).map
    (fun q => ⟨q.segments.reverse, q.absolute⟩)

/-- `FastPath.name`: the last segment, or the string form for the root. -/
def FastPath.name (p : FastPath) : String :=
  if p.segments = [] then p.str else p.segments.getLastD ""

/-- `FastPath.stem`: stem of the last segment (`""` for the root). -/
def FastPath.stem (p : FastPath) : String :=
  if p.segments = [] then "" else stemOfName (p.segments.getLastD "")

/-- `FastPath.suffix`: suffix of the last segment (`""` for the root). -/
def FastPath.suffix (p : FastPath) : String :=
  if p.segments = [] then "" else suffixOfName (p.segments.getLastD "")

/-- `FastPath.with_stem`: replace the last segment by `stem + self.suffix`. -/
def FastPath.with_stem (p : FastPath) (stem : String) : FastPath :=
  ⟨p.segments.dropLast ++ [stem ++ p.suffix], p.absolute⟩

/-- The data-model invariant of a path value: a segment is a separator-free
path component that is neither empty nor the self-reference `"."` (spec §3:
"segments never contain empty strings or the self-reference segment"; a
component containing the separator would not be a single segment). -/
def segWf (s : String) : Prop :=
  s ≠ "" ∧ s ≠ "." ∧ '/' ∉ s.data

instance (s : String) : Decidable (segWf s) := by
  unfold segWf; infer_instance

/-- A path value all of whose segments satisfy the segment invariant. -/
def FastPath.Wf (p : FastPath) : Prop :=
  ∀ s ∈ p.segments, segWf s

instance (p : FastPath) : Decidable p.Wf := by
  unfold FastPath.Wf; infer_instance

/-! ### Checks, diagnostics, errors, configuration -/

/-- The `Check` flag set of `src/earchive/commands/check/names.py` (an
`IntFlag` with the three independent bits `EMPTY`, `CHARACTERS`, `LENGTH`). -/
structure Check where
  empty : Bool
  characters : Bool
  length : Bool
deriving DecidableEq

/-- The flag value `Check.CHARACTERS`. -/
def Check.CHARACTERS : Check := ⟨false, true, false⟩

/-- Bitwise `^` on `Check` flag sets (Python `IntFlag` XOR). -/
def Check.symmDiff (a b : Check) : Check :=
  ⟨xor a.empty b.empty, xor a.characters b.characters, xor a.length b.length⟩

/-- `Check.NO_CHECK` (the empty flag set, falsy in Python). -/
def Check.NO_CHECK : Check := ⟨false, false, false⟩

/-- A regex match over the stem as recorded in a `Characters` diagnostic:
`match.start()` (a character offset) together with `match.group(0)`. -/
abbrev Span := Nat × String

/-- Python exceptions surfaced by the OS-facing primitives. -/
inductive PyErr where
  | permissionError
  | osError (msg : String)
  | valueError
deriving DecidableEq

/-- The `PathDiagnostic` variants of `src/earchive/commands/check/names.py`.
`charactersReplace` is `PathCharactersReplaceDiagnostic`, `filenameLength` is
`PathFilenameLengthDiagnostic` (the `NameLength` diagnostic), `length` is
`PathLengthDiagnostic`, `renameMatch` is `PathRenameDiagnostic`. -/
inductive PathDiag where
  | characters (path : FastPath) (ms : List Span)
  | invalidName (path : FastPath)
  | renameMatch (path : FastPath) (newPath : FastPath)
  | charactersReplace (path : FastPath) (newPath : FastPath) (ms : List Span)
  | length (path : FastPath)
  | filenameLength (path : FastPath)
  | empty (path : FastPath)
  | error (path : FastPath) (cause : PyErr)
deriving DecidableEq

/-- The `COLLISION` policy of `src/earchive/commands/check/config/names.py`. -/
inductive COLLISION where
  | skip
  | increment
deriving DecidableEq

/-- Modelled from the spec: the fully-assembled `Config` value consumed by the
engine. The `Config` class itself (`earchive/commands/check/config/__init__.py`)
is not under `src/`; its fields are reconstructed from the engine's reads
(`config.behavior.collision`, `config.behavior.dry_run`, `config.check.run`,
`config.check.max_path_length`, `config.check.max_name_length`,
`config.check.operating_system`, `config.check.characters.replacement`,
`config.invalid_characters`, `config.invalid_names`, `config.exclude`) and the
spec's §3 Config description. The compiled invalid-character pattern is
modelled by its `finditer` result (the list of match spans on a given string)
and the invalid-full-name pattern by its `match` result. `winFromUnix` models
`config.check.operating_system is OS.WINDOWS and sys.platform != "win32"`.
Dry-run is modelled by its truthiness (the entry-budget variant is not needed
by the claims under proof). -/
structure Config where
  collision : COLLISION
  dryRun : Bool
  run : Check
  invalidCharacters : String → List Span
  invalidNames : String → Bool
  replacement : String
  maxPathLength : Nat
  maxNameLength : Nat
  exclude : List FastPath
  winFromUnix : Bool

/-! ### Classification (`src/earchive/commands/check/utils.py`) -/

/-- `path_len`: the rendered length, plus 4 when classifying Windows limits
from a non-Windows host. -/
def path_len (cfg : Config) (p : FastPath) : Nat :=
  p.str.length + (if cfg.winFromUnix then 4 else 0)

/-- `_is_excluded`: the path itself or any of its ancestors is in the exclusion
set. Python set membership uses `__hash__` then `__eq__`; barring accidental
hash collisions of distinct keys this finds a member exactly when both the
segments and the absolute flag agree. -/
def isExcluded (cfg : Config) (p : FastPath) : Bool :=
  if cfg.exclude.length = 0 then false
  else (p :: p.parents).any (fun q => cfg.exclude.any (fun x => x = q))

/-- `_is_empty_recurse`: a directory is recorded empty when every entry of
`path.iterdir()` is already in the memo. `iterdir` returns bare child NAMES
(`os.listdir`), while the memo records `path.str()` full path strings. On
success the path's string form is added to the memo. -/
def is_empty_recurse (subs : List String) (p : FastPath) (emptyDirs : List String) :
    Bool × List String :=
  if subs.all (fun sub => emptyDirs.contains sub) then (true, p.str :: emptyDirs)
  else (false, emptyDirs)

/-- The `Check.EMPTY` block of `check_valid_file`: for a directory, list it
(`itd` is the `iterdir` primitive); the source catches exactly
`PermissionError` from it and converts it to an `Error` diagnostic — in the
filesystem model used below, listing fails only with a permission error.
Returns the yielded diagnostics and the updated empty-directory memo. -/
def emptyBranch (checks : Check) (itd : FastPath → Except PyErr (List String))
    (p : FastPath) (isDir : Bool) (emptyDirs : List String) :
    List PathDiag × List String :=
  if checks.empty && isDir then
    match itd p with
    | .error e => ([PathDiag.error p e], emptyDirs)
    | .ok subs =>
      let r := is_empty_recurse subs p emptyDirs
      (if r.1 then [PathDiag.empty p] else [], r.2)
  else ([], emptyDirs)

/-- The `Check.CHARACTERS` block of `check_valid_file`: the invalid-character
pattern is run over `path.stem` (every match span is collected), and the
invalid-name pattern is matched against `path.stem` as well (line 74 of
`src/earchive/commands/check/utils.py`). -/
def charBranch (cfg : Config) (checks : Check) (p : FastPath) : List PathDiag :=
  if checks.characters then
    (if cfg.invalidCharacters p.stem ≠ [] then
      [PathDiag.characters p (cfg.invalidCharacters p.stem)] else []) ++
    (if cfg.invalidNames p.stem then [PathDiag.invalidName p] else [])
  else []

/-- The `Check.LENGTH` block of `check_valid_file`: name length against
`max_name_length`, then platform-adjusted path length against
`max_path_length`. -/
def lengthBranch (cfg : Config) (checks : Check) (p : FastPath) : List PathDiag :=
  if checks.length then
    (if p.name.length > cfg.maxNameLength then [PathDiag.filenameLength p] else []) ++
    (if path_len cfg p > cfg.maxPathLength then [PathDiag.length p] else [])
  else []

/-- `check_valid_file`: classify one path against the enabled checks, yielding
nothing for excluded paths, otherwise the Empty, Characters and Length block
diagnostics in that order, together with the updated empty-directory memo. -/
def check_valid_file (cfg : Config) (checks : Check)
    (itd : FastPath → Except PyErr (List String)) (p : FastPath) (isDir : Bool)
    (emptyDirs : List String) : List PathDiag × List String :=
  if isExcluded cfg p then ([], emptyDirs)
  else
    ((emptyBranch checks itd p isDir emptyDirs).1 ++ charBranch cfg checks p ++
      lengthBranch cfg checks p,
     (emptyBranch checks itd p isDir emptyDirs).2)

/-! ### Walker model (`FastPath.walk` / `walk_all`) -/

/-- A filesystem tree: the directory entry rooted at the path under check. An
unreadable directory raises `PermissionError` when listed. -/
inductive FsTree where
  | file (name : String)
  | dir (name : String) (readable : Bool) (children : List FsTree)

/-- Name of a tree node. -/
def FsTree.nodeName : FsTree → String
  | .file n => n
  | .dir n _ _ => n

/-- Whether a tree node is a directory. -/
def FsTree.isDirNode : FsTree → Bool
  | .file _ => false
  | .dir _ _ _ => true

/-- Names of the immediate subdirectories, in listing order. -/
def FsTree.dirNames (t : FsTree) : List String :=
  match t with
  | .file _ => []
  | .dir _ _ children => (children.filter (fun c => c.isDirNode)).map FsTree.nodeName

/-- Names of the immediate files, in listing order. -/
def FsTree.fileNames (t : FsTree) : List String :=
  match t with
  | .file _ => []
  | .dir _ _ children => (children.filter (fun c => !c.isDirNode)).map FsTree.nodeName

/-- One element of the lazy walk stream: either a `(root, dirs, files)` triple
or an invocation of the `on_error` callback. -/
inductive WalkEvent where
  | entry (root : FastPath) (dirs : List String) (files : List String)
  | errorEv (path : FastPath) (cause : PyErr)
deriving DecidableEq

mutual
/-- `os.walk(self, topdown=False, onerror, ...)` on the model tree: listing an
unreadable directory invokes `on_error` and skips the subtree; otherwise the
subdirectory walks are produced first and the directory's own triple last.
`self` is the path of the node `t`. -/
def walkTree (self : FastPath) (t : FsTree) : List WalkEvent :=
  match t with
  | .file _ => []
  | .dir _ readable children =>
    if readable then
      walkForest self children ++ [.entry self t.dirNames t.fileNames]
    else [.errorEv self .permissionError]
/-- Bottom-up walks of the subdirectories of a directory at path `self`, in
listing order (files are not recursed into). -/
def walkForest (self : FastPath) : List FsTree → List WalkEvent
  | [] => []
  | t :: ts => walkTree (self.div t.nodeName) t ++ walkForest self ts
end

/-- `walk_all(path, errors, top_down=False)`: the child walk (when `path` is a
directory) followed by a synthetic entry presenting `path` itself as a name
inside its parent. -/
def walk_all (p : FastPath) (t : FsTree) : List WalkEvent :=
  (match t with
   | .dir _ _ _ => walkTree p t
   | .file _ => []) ++
  [.entry p.parent (if t.isDirNode then [p.name] else [])
    (if t.isDirNode then [] else [p.name])]

/-- Drop `pre` as a leading run of `segs`, returning the remainder. -/
def dropSegs : List String → List String → Option (List String)
  | [], rest => some rest
  | _ :: _, [] => none
  | a :: as, b :: bs => if a = b then dropSegs as bs else none

/-- Node of the model tree at the given relative segment list. -/
def findNode : FsTree → List String → Option FsTree
  | t, [] => some t
  | t, s :: rest =>
    match t with
    | .file _ => none
    | .dir _ _ children =>
      match children.find? (fun c => c.nodeName = s) with
      | some c => findNode c rest
      | none => none

/-- The `iterdir` primitive (`os.listdir`) over the model tree rooted at
`rootPath`: bare child names for a readable directory, `PermissionError` for an
unreadable one. -/
def treeIterdir (rootPath : FastPath) (t : FsTree) (p : FastPath) :
    Except PyErr (List String) :=
  match dropSegs rootPath.segments p.segments with
  | none => .error (.osError "No such file or directory")
  | some rel =>
    match findNode t rel with
    | none => .error (.osError "No such file or directory")
    | some (.file _) => .error (.osError "Not a directory")
    | some (.dir _ readable children) =>
      if readable then .ok (children.map FsTree.nodeName) else .error .permissionError

/-! ### The diagnostic walk (`invalid_paths`) -/

/-- Classify the listed names (immediate children of `root`) in order,
threading the empty-directory memo. -/
def classifyNames (cfg : Config) (checks : Check)
    (itd : FastPath → Except PyErr (List String)) (root : FastPath) (isDir : Bool) :
    List String → List String → List PathDiag × List String
  | [], memo => ([], memo)
  | n :: rest, memo =>
    let r1 := check_valid_file cfg checks itd (root.div n) isDir memo
    let r2 := classifyNames cfg checks itd root isDir rest r1.2
    (r1.1 ++ r2.1, r2.2)

/-- The loop of `invalid_paths`: for every walk entry classify the files, then
the directories; traversal errors reported by the walker are accumulated into
`errs` in walk order and yielded only after the walk is exhausted. -/
def invalidPathsGo (cfg : Config) (checks : Check)
    (itd : FastPath → Except PyErr (List String)) :
    List WalkEvent → List String → List PathDiag → List PathDiag
  | [], _, errs => errs
  | .errorEv p e :: rest, memo, errs =>
    invalidPathsGo cfg checks itd rest memo (errs ++ [PathDiag.error p e])
  | .entry root dirs files :: rest, memo, errs =>
    let rF := classifyNames cfg checks itd root false files memo
    let rD := classifyNames cfg checks itd root true dirs rF.2
    rF.1 ++ rD.1 ++ invalidPathsGo cfg checks itd rest rD.2 errs

/-- `invalid_paths(config, checks, ...)` over the walk stream `events`. -/
def invalid_paths (cfg : Config) (checks : Check)
    (itd : FastPath → Except PyErr (List String)) (events : List WalkEvent) :
    List PathDiag :=
  invalidPathsGo cfg checks itd events [] []

/-- The classification half of `invalid_paths` alone: the diagnostics produced
by `check_valid_file` over the walk entries, with traversal errors ignored. -/
def classifyEvents (cfg : Config) (checks : Check)
    (itd : FastPath → Except PyErr (List String)) :
    List WalkEvent → List String → List PathDiag
  | [], _ => []
  | .errorEv _ _ :: rest, memo => classifyEvents cfg checks itd rest memo
  | .entry root dirs files :: rest, memo =>
    let rF := classifyNames cfg checks itd root false files memo
    let rD := classifyNames cfg checks itd root true dirs rF.2
    rF.1 ++ rD.1 ++ classifyEvents cfg checks itd rest rD.2

/-- The `Error` diagnostics produced by the walker's `on_error` callback, in
walk order. -/
def walkErrorDiags (events : List WalkEvent) : List PathDiag :=
  events.filterMap (fun ev =>
    match ev with
    | .errorEv p e => some (PathDiag.error p e)
    | .entry _ _ _ => none)

/-! ### Safe rename and the fix passes (`src/earchive/commands/check/check.py`) -/

/-- The OS-facing primitives used by the fix passes, as explicit inputs:
existence test, directory listing (for `glob`), and the rename call (which may
report an OS-level failure). -/
structure FsOps where
  pathExists : FastPath → Bool
  listNames : FastPath → List String
  renameOp : FastPath → FastPath → Except PyErr Unit

/-- Whether `name` matches the glob pattern `stem + "(*)" + suffix` built by
`safe_rename` (a literal stem, "(", any characters, ")", a literal suffix).
This renders the pattern for stems and suffixes containing no further glob
metacharacters, which is how `safe_rename` uses it. -/
def globIncrMatch (stem sfx name : String) : Bool :=
  listLead (stem.data ++ ['(']) name.data &&
  listLead (')' :: sfx.data).reverse name.data.reverse &&
  decide (stem.data.length + sfx.data.length + 2 ≤ name.data.length)

/-- Python `int(s)` on the sliced group: an optional sign followed by digits
(the tolerated surrounding whitespace/underscores of `int()` are not needed
here). `none` models the `ValueError`. -/
def pyInt (cs : List Char) : Option Int :=
  match cs with
  | '-' :: rest =>
    if rest ≠ [] && rest.all (·.isDigit) then
      some (-(rest.foldl (fun n c => n * 10 + (c.toNat - '0'.toNat)) 0 : Nat))
    else none
  | _ =>
    if cs ≠ [] && cs.all (·.isDigit) then
      some ((cs.foldl (fun n c => n * 10 + (c.toNat - '0'.toNat)) 0 : Nat))
    else none

/-- `int(g.stem.split("(")[-1][:-1])` for one glob hit `g`: take the stem of
the matched name, split on `"("`, keep the last part, drop its final character
(the closing parenthesis), and parse the integer. -/
def extractNb (name : String) : Option Int :=
  pyInt (((pySplit '(' (stemOfName name).data).getLastD []).dropLast)

/-- `max(ns + [0])`. -/
def pyMax0 (ns : List Int) : Int :=
  ns.foldl max 0

/-- The final unconditional step of `safe_rename`: perform the rename unless
dry-run, and succeed with the effective target. An OS-level failure of the
rename primitive is NOT caught here (there is no `try` in the source), so it
propagates as an exception. -/
def doRename (fs : FsOps) (cfg : Config) (path target : FastPath) :
    Except PyErr (Bool × FastPath) :=
  if cfg.dryRun then .ok (true, target)
  else (fs.renameOp path target).map (fun _ => (true, target))

/-- `safe_rename(path, target, config)`: if the target exists, fail under the
`skip` policy; under `increment`, glob the parent for `path.stem + "(*)" +
path.suffix` (the OLD path's stem), extract each hit's number, and retarget to
`target.stem + "(max+1)" + target.suffix`. `ValueError` from `int()` and
OS-level rename failures propagate as `.error`. -/
def safe_rename (fs : FsOps) (cfg : Config) (path target : FastPath) :
    Except PyErr (Bool × FastPath) :=
  if fs.pathExists target then
    if cfg.collision = COLLISION.skip then .ok (false, path)
    else
      match ((fs.listNames path.parent).filter
          (fun n => globIncrMatch path.stem path.suffix n)).mapM extractNb with
      | none => .error .valueError
      | some ns =>
        let nextNb := pyMax0 ns + 1
        doRename fs cfg path (target.with_stem (target.stem ++ "(" ++ toString nextNb ++ ")"))
  else doRename fs cfg path target

/-- The byte-splice of pass 1: replace each matched span of the stem with the
configured replacement, in match order. The source operates on the UTF-8
bytes of the stem using the regex match's character offsets; this model
operates on characters, which coincides with the source on single-byte
(ASCII) text. -/
def applyMatches (stem : String) (ms : List Span) (repl : String) : String :=
  String.mk (ms.foldl
    (fun buf m => buf.take m.1 ++ repl.data ++ buf.drop (m.1 + m.2.data.length))
    stem.data)

/-- Pass 1 of `rename` (character cleanup): for every `Characters` diagnostic,
splice the stem, `safe_rename` to `path.with_stem(new_stem)`, and yield
`CharactersFixed` on success or the original diagnostic when a skip-policy
collision blocked the rename. An exception from `safe_rename` terminates the
generator: nothing further is yielded and no `Error` diagnostic is produced. -/
def pass1 (cfg : Config) (fs : FsOps) : List PathDiag → List PathDiag × Option PyErr
  | [] => ([], none)
  | d :: rest =>
    match d with
    | .characters p ms =>
      match safe_rename fs cfg p (p.with_stem (applyMatches p.stem ms cfg.replacement)) with
      | .error e => ([], some e)
      | .ok (true, np) =>
        let r := pass1 cfg fs rest
        (PathDiag.charactersReplace p np ms :: r.1, r.2)
      | .ok (false, _) =>
        let r := pass1 cfg fs rest
        (d :: r.1, r.2)
    | _ => pass1 cfg fs rest

/-- The check set used by pass 3: `config.check.run ^ Check.CHARACTERS`
(bitwise XOR, line 112 of `src/earchive/commands/check/check.py`). -/
def pass3Checks (run : Check) : Check :=
  run.symmDiff Check.CHARACTERS

/-- Modelled from the spec: "the checks requested minus `Characters`" — the
requested set with the `Characters` bit cleared. Stated for comparison with
`pass3Checks`, which the source computes with XOR instead. -/
def specMinusCharacters (run : Check) : Check :=
  ⟨run.empty, false, run.length⟩

/-- Pass 3 of `rename` (cleanup): `Empty` diagnostics delete the directory
(unless dry-run) and are re-emitted; `Length` (`PathLengthDiagnostic`)
diagnostics increment the unresolved counter and are re-emitted; every other
diagnostic — including `NameLength` (`PathFilenameLengthDiagnostic`) — falls
into the wildcard case and is dropped. A failure of the rmdir primitive
propagates, terminating the generator with the counter as mutated so far. -/
def pass3 (cfg : Config) (rmdirOp : FastPath → Except PyErr Unit) :
    List PathDiag → Nat → List PathDiag × Nat × Option PyErr
  | [], c => ([], c, none)
  | d :: rest, c =>
    match d with
    | .empty p =>
      if cfg.dryRun then
        let r := pass3 cfg rmdirOp rest c
        (d :: r.1, r.2.1, r.2.2)
      else
        match rmdirOp p with
        | .error e => ([], c, some e)
        | .ok _ =>
          let r := pass3 cfg rmdirOp rest c
          (d :: r.1, r.2.1, r.2.2)
    | .length _ =>
      let r := pass3 cfg rmdirOp rest (c + 1)
      (d :: r.1, r.2.1, r.2.2)
    | _ => pass3 cfg rmdirOp rest c

/-- Pass 3 started with a fresh counter. -/
def pass3Run (cfg : Config) (rmdirOp : FastPath → Except PyErr Unit)
    (diags : List PathDiag) : List PathDiag × Nat × Option PyErr :=
  pass3 cfg rmdirOp diags 0

/-- The diagnostics pass 3 re-emits: `Empty` and `Length` (every other variant
falls into its wildcard case). -/
def keptInPass3 : PathDiag → Bool
  | .empty _ => true
  | .length _ => true
  | _ => false

/-- Whether a diagnostic is a `Length` (`PathLengthDiagnostic`). -/
def isLengthDiag : PathDiag → Bool
  | .length _ => true
  | _ => false

instance {ε α : Type} [DecidableEq ε] [DecidableEq α] : DecidableEq (Except ε α) :=
  fun a b =>
    match a, b with
    | .ok x, .ok y => decidable_of_iff (x = y) (by simp)
    | .error e, .error f => decidable_of_iff (e = f) (by simp)
    | .ok _, .error _ => isFalse (by simp)
    | .error _, .ok _ => isFalse (by simp)

/-! ### Concrete instances used by the counterexamples and witnesses -/

/-- A baseline configuration: `increment` collision policy, no dry-run, only
the `Empty` check requested, no exclusions, trivial patterns. -/
def cfgBase : Config :=
  { collision := .increment, dryRun := false, run := ⟨true, false, false⟩,
    invalidCharacters := fun _ => [], invalidNames := fun _ => false,
    replacement := "_", maxPathLength := 260, maxNameLength := 255,
    exclude := [], winFromUnix := false }

/-- A directory `/b` whose only child is the empty directory `/b/d`. -/
def tree2 : FsTree := .dir "b" true [.dir "d" true []]

/-- The path `/b` at which `tree2` sits. -/
def root2 : FastPath := ⟨["b"], true⟩

/-- The path `/d/a.txt`. -/
def pa : FastPath := ⟨["d", "a.txt"], true⟩

/-- The path `/d/b.txt`. -/
def pb : FastPath := ⟨["d", "b.txt"], true⟩

/-- The path `/d/b(1).txt`. -/
def pb1 : FastPath := ⟨["d", "b(1).txt"], true⟩

/-- A filesystem in which `/d` holds `a.txt`, `b.txt` and `b(1).txt`, and the
rename primitive succeeds. -/
def fsC1 : FsOps :=
  { pathExists := fun p => p ∈ [pa, pb, pb1],
    listNames := fun p => if p = ⟨["d"], true⟩ then ["a.txt", "b.txt", "b(1).txt"] else [],
    renameOp := fun _ _ => .ok () }

/-- The path `/doc.txt`. -/
def pDoc : FastPath := ⟨["doc.txt"], true⟩

/-- A filesystem in which the root holds `doc.txt` and `doc(2).txt`. -/
def fsDoc : FsOps :=
  { pathExists := fun p => p ∈ [pDoc, (⟨["doc(2).txt"], true⟩ : FastPath)],
    listNames := fun p => if p = ⟨[], true⟩ then ["doc.txt", "doc(2).txt"] else [],
    renameOp := fun _ _ => .ok () }

/-- `cfgBase` in dry-run mode. -/
def cfgDry : Config := { cfgBase with dryRun := true }

/-- A configuration whose invalid-full-name pattern matches exactly the string
`"CON"`, with only the `Characters` check requested. -/
def cfg5 : Config :=
  { cfgBase with invalidNames := fun s => s == "CON", run := ⟨false, true, false⟩ }

/-- The path `/CON.txt`: its stem `CON` matches `cfg5`'s invalid-name pattern,
its full name `CON.txt` does not. -/
def pcon : FastPath := ⟨["CON.txt"], true⟩

/-- A configuration whose character replacement string is a dot, in dry-run
mode. -/
def cfg9 : Config := { cfgBase with replacement := ".", dryRun := true }

/-- An empty filesystem model: nothing exists, every listing is empty. -/
def fs9 : FsOps :=
  { pathExists := fun _ => false, listNames := fun _ => [],
    renameOp := fun _ _ => .ok () }

/-- The path `/ab` (no extension). -/
def pab : FastPath := ⟨["ab"], true⟩

/-- The path `/ab.txt`. -/
def pabt : FastPath := ⟨["ab.txt"], true⟩

/-- An rmdir primitive that always fails with a permission `OSError`. -/
def rmFail : FastPath → Except PyErr Unit :=
  fun _ => .error (.osError "permission denied")

/-- An rmdir primitive that always succeeds. -/
def rmOk : FastPath → Except PyErr Unit := fun _ => .ok ()

/-- A filesystem in which nothing exists and the rename primitive always
fails with a permission `OSError`. -/
def fsRenameFail : FsOps :=
  { pathExists := fun _ => false, listNames := fun _ => [],
    renameOp := fun _ _ => .error (.osError "permission denied") }

/-! ## Helper lemmas -/

theorem pyStrip_eq_self (c : Char) (cs : List Char)
    (h1 : ∀ x, cs.head? = some x → x ≠ c) (h2 : ∀ x, cs.getLast? = some x → x ≠ c) :
    pyStrip c cs = cs := by
  unfold pyStrip
  have hd : cs.dropWhile (· = c) = cs := by
    cases cs with
    | nil => rfl
    | cons a l =>
      rw [List.dropWhile_cons, if_neg]
      simpa using h1 a rfl
  rw [hd]
  have hr : cs.reverse.dropWhile (· = c) = cs.reverse := by
    cases hrev : cs.reverse with
    | nil => rfl
    | cons a l =>
      rw [List.dropWhile_cons, if_neg]
      have : cs.getLast? = some a := by
        rw [← List.head?_reverse, hrev, List.head?_cons]
      simpa using h2 a this
  rw [hr, List.reverse_reverse]

theorem pyStrip_slash_cons (cs : List Char) : pyStrip '/' ('/' :: cs) = pyStrip '/' cs := by
  unfold pyStrip
  rw [List.dropWhile_cons, if_pos (by simp)]

theorem pySplit_sepFree (sep : Char) (cs : List Char) (h : sep ∉ cs) :
    pySplit sep cs = [cs] := by
  induction cs with
  | nil => rfl
  | cons a l ih =>
    have ha : ¬(a = sep) := fun hh => h (hh ▸ List.mem_cons_self a l)
    have hl : sep ∉ l := fun hh => h (List.mem_cons_of_mem a hh)
    rw [pySplit, if_neg ha, ih hl]

theorem pySplit_append_sep (sep : Char) (d tail : List Char) (h : sep ∉ d) :
    pySplit sep (d ++ sep :: tail) = d :: pySplit sep tail := by
  induction d with
  | nil =>
    rw [List.nil_append, pySplit, if_pos rfl]
  | cons a d2 ih =>
    have ha : ¬(a = sep) := fun hh => h (hh ▸ List.mem_cons_self a d2)
    have hd2 : sep ∉ d2 := fun hh => h (List.mem_cons_of_mem a hh)
    rw [List.cons_append, pySplit, if_neg ha, ih hd2]

theorem joinChar_cons_cons (sep : Char) (d e : List Char) (rest : List (List Char)) :
    joinChar sep (d :: e :: rest) = d ++ sep :: joinChar sep (e :: rest) := rfl

theorem joinChar_ne_nil (sep : Char) (d : List Char) (rest : List (List Char))
    (h : d ≠ []) : joinChar sep (d :: rest) ≠ [] := by
  cases rest with
  | nil => simpa [joinChar] using h
  | cons e r =>
    rw [joinChar_cons_cons]
    cases d with
    | nil => exact absurd rfl h
    | cons a l => simp

theorem joinChar_head? (sep : Char) (d : List Char) (rest : List (List Char))
    (h : d ≠ []) : (joinChar sep (d :: rest)).head? = d.head? := by
  cases rest with
  | nil => rfl
  | cons e r =>
    rw [joinChar_cons_cons]
    cases d with
    | nil => exact absurd rfl h
    | cons a l => simp

theorem joinChar_getLast?_mem (sep : Char) :
    ∀ ds : List (List Char), (∀ d ∈ ds, d ≠ ([] : List Char)) → ds ≠ [] →
      ∃ d ∈ ds, (joinChar sep ds).getLast? = d.getLast?
  | [], _, hne => absurd rfl hne
  | [d], _, _ => ⟨d, List.mem_cons_self d [], rfl⟩
  | d :: e :: rest, hall, _ => by
    obtain ⟨d2, hd2mem, hd2⟩ := joinChar_getLast?_mem sep (e :: rest)
      (fun x hx => hall x (List.mem_cons_of_mem d hx)) (List.cons_ne_nil e rest)
    refine ⟨d2, List.mem_cons_of_mem d hd2mem, ?_⟩
    rw [joinChar_cons_cons, List.getLast?_append_cons, ← hd2]
    have : joinChar sep (e :: rest) ≠ [] :=
      joinChar_ne_nil sep e rest (hall e (by simp))
    cases hj : joinChar sep (e :: rest) with
    | nil => exact absurd hj this
    | cons a l => rw [List.getLast?_cons_cons]

theorem pySplit_joinChar (ds : List (List Char)) (hsep : ∀ d ∈ ds, '/' ∉ d)
    (hne : ds ≠ []) : pySplit '/' (joinChar '/' ds) = ds := by
  induction ds with
  | nil => exact absurd rfl hne
  | cons d rest ih =>
    cases rest with
    | nil =>
      show pySplit '/' (joinChar '/' [d]) = [d]
      exact pySplit_sepFree '/' d (hsep d (by simp))
    | cons e r =>
      rw [joinChar_cons_cons,
        pySplit_append_sep '/' d (joinChar '/' (e :: r)) (hsep d (by simp)),
        ih (fun x hx => hsep x (List.mem_cons_of_mem d hx)) (List.cons_ne_nil e r)]

theorem splitExtAux_eq_none_iff (cs : List Char) : splitExtAux cs = none ↔ '.' ∉ cs := by
  induction cs with
  | nil => simp [splitExtAux]
  | cons c t ih =>
    rw [splitExtAux]
    cases ht : splitExtAux t with
    | some pr =>
      have : '.' ∈ t := by
        by_contra hmem
        rw [ih.mpr hmem] at ht
        exact Option.noConfusion ht
      simp [this]
    | none =>
      have hnt : '.' ∉ t := ih.mp ht
      by_cases hc : c = '.'
      · subst hc; simp
      · simp [hc, hnt, Ne.symm hc]

theorem splitExtAux_append (xs t : List Char) (h : '.' ∉ t) :
    splitExtAux (xs ++ '.' :: t) = some (xs, '.' :: t) := by
  induction xs with
  | nil =>
    rw [List.nil_append, splitExtAux, (splitExtAux_eq_none_iff t).mpr h]
    simp
  | cons c xs2 ih =>
    rw [List.cons_append, splitExtAux, ih]

theorem splitExtAux_some_spec :
    ∀ (cs st sf : List Char), splitExtAux cs = some (st, sf) →
      ∃ t, sf = '.' :: t ∧ '.' ∉ t ∧ cs = st ++ sf
  | [], st, sf, h => by simp [splitExtAux] at h
  | c :: cs2, st, sf, h => by
    rw [splitExtAux] at h
    cases h2 : splitExtAux cs2 with
    | some pr =>
      obtain ⟨st2, sf2⟩ := pr
      rw [h2] at h
      obtain ⟨t, ht, hnt, hcs⟩ := splitExtAux_some_spec cs2 st2 sf2 h2
      have hst : st = c :: st2 ∧ sf = sf2 := by
        injection h with h3
        injection h3 with h4 h5
        exact ⟨h4.symm, h5.symm⟩
      obtain ⟨hst1, hst2⟩ := hst
      exact ⟨t, hst2 ▸ ht, hnt, by rw [hst1, hst2, List.cons_append, ← hcs]⟩
    | none =>
      rw [h2] at h
      by_cases hc : c = '.'
      · rw [if_pos hc] at h
        have hst : st = [] ∧ sf = '.' :: cs2 := by
          injection h with h3
          injection h3 with h4 h5
          exact ⟨h4.symm, h5.symm⟩
        obtain ⟨hst1, hst2⟩ := hst
        exact ⟨cs2, hst2, (splitExtAux_eq_none_iff cs2).mp h2,
          by rw [hst1, hst2, List.nil_append, hc]⟩
      · rw [if_neg hc] at h
        exact Option.noConfusion h

theorem suffixOfName_append_dotfree (s sfx : String) (t : List Char)
    (ht : sfx.data = '.' :: t) (hnt : '.' ∉ t) : suffixOfName (s ++ sfx) = sfx := by
  unfold suffixOfName
  rw [String.data_append, ht, splitExtAux_append s.data t hnt]
  exact String.ext ht.symm

theorem suffix_data_structure (p : FastPath) (h : p.suffix ≠ "") :
    ∃ t, p.suffix.data = '.' :: t ∧ '.' ∉ t := by
  by_cases hseg : p.segments = []
  · exact absurd (by simp [FastPath.suffix, hseg]) h
  · have hsuf : p.suffix = suffixOfName (p.segments.getLastD "") := by
      simp [FastPath.suffix, hseg]
    rw [hsuf] at h ⊢
    unfold suffixOfName at h ⊢
    cases hsp : splitExtAux (p.segments.getLastD "").data with
    | none => rw [hsp] at h; exact absurd rfl h
    | some pr =>
      obtain ⟨st, sf⟩ := pr
      obtain ⟨t, ht, hnt, _⟩ := splitExtAux_some_spec _ st sf hsp
      exact ⟨t, ht, hnt⟩

theorem with_stem_suffix (p : FastPath) (s : String) (h : p.suffix ≠ "") :
    (p.with_stem s).suffix = p.suffix := by
  obtain ⟨t, ht, hnt⟩ := suffix_data_structure p h
  show FastPath.suffix ⟨p.segments.dropLast ++ [s ++ p.suffix], p.absolute⟩ = p.suffix
  unfold FastPath.suffix
  rw [if_neg (by simp), List.getLastD_concat]
  exact suffixOfName_append_dotfree s p.suffix t ht hnt

theorem except_map_ok {ε α β : Type} (f : α → β) (x : Except ε α) (b : β)
    (h : x.map f = .ok b) : ∃ a, x = .ok a ∧ b = f a := by
  cases x with
  | error e => simp [Except.map] at h
  | ok a => exact ⟨a, rfl, by simpa [Except.map] using h.symm⟩

theorem doRename_ok_target (fs : FsOps) (cfg : Config) (path target np : FastPath)
    (h : doRename fs cfg path target = .ok (true, np)) : np = target := by
  unfold doRename at h
  by_cases hd : cfg.dryRun
  · rw [if_pos hd] at h
    injection h with h2
    exact (congrArg Prod.snd h2).symm
  · rw [if_neg hd] at h
    obtain ⟨a, _, hb⟩ := except_map_ok _ _ _ h
    exact congrArg Prod.snd hb

theorem safe_rename_ok_target (fs : FsOps) (cfg : Config) (path target np : FastPath)
    (h : safe_rename fs cfg path target = .ok (true, np)) :
    np = target ∨ ∃ n : Int, np = target.with_stem (target.stem ++ "(" ++ toString n ++ ")") := by
  unfold safe_rename at h
  by_cases hex : fs.pathExists target
  · rw [if_pos hex] at h
    by_cases hskip : cfg.collision = COLLISION.skip
    · rw [if_pos hskip] at h
      injection h with h2
      injection h2 with h3 _
      exact Bool.noConfusion h3
    · rw [if_neg hskip] at h
      cases hm : ((fs.listNames path.parent).filter
          (fun n => globIncrMatch path.stem path.suffix n)).mapM extractNb with
      | none => rw [hm] at h; exact Except.noConfusion h
      | some ns =>
        rw [hm] at h
        exact Or.inr ⟨pyMax0 ns + 1, doRename_ok_target fs cfg path _ np h⟩
  · rw [if_neg hex] at h
    exact Or.inl (doRename_ok_target fs cfg path target np h)

theorem le_foldl_max (ns : List Int) (a : Int) : a ≤ ns.foldl max a := by
  induction ns generalizing a with
  | nil => exact le_refl a
  | cons n t ih => exact le_trans (le_max_left a n) (ih (max a n))

theorem mem_le_foldl_max (ns : List Int) (a k : Int) (h : k ∈ ns) :
    k ≤ ns.foldl max a := by
  induction ns generalizing a with
  | nil => exact absurd h (List.not_mem_nil k)
  | cons n t ih =>
    rcases List.mem_cons.mp h with h1 | h2
    · subst h1
      exact le_trans (le_max_right a k) (le_foldl_max t (max a k))
    · exact ih (max a n) h2

theorem walkErrorDiags_cons_error (p : FastPath) (e : PyErr) (rest : List WalkEvent) :
    walkErrorDiags (.errorEv p e :: rest) = PathDiag.error p e :: walkErrorDiags rest := by
  simp [walkErrorDiags, List.filterMap_cons]

theorem walkErrorDiags_cons_entry (root : FastPath) (dirs files : List String)
    (rest : List WalkEvent) :
    walkErrorDiags (.entry root dirs files :: rest) = walkErrorDiags rest := by
  simp [walkErrorDiags, List.filterMap_cons]

theorem invalidPathsGo_split (cfg : Config) (checks : Check)
    (itd : FastPath → Except PyErr (List String)) :
    ∀ (events : List WalkEvent) (memo : List String) (errs : List PathDiag),
      invalidPathsGo cfg checks itd events memo errs =
        classifyEvents cfg checks itd events memo ++ errs ++ walkErrorDiags events
  | [], memo, errs => by simp [invalidPathsGo, classifyEvents, walkErrorDiags]
  | .errorEv p e :: rest, memo, errs => by
    rw [invalidPathsGo, classifyEvents,
      invalidPathsGo_split cfg checks itd rest memo (errs ++ [PathDiag.error p e]),
      walkErrorDiags_cons_error]
    simp [List.append_assoc]
  | .entry root dirs files :: rest, memo, errs => by
    simp only [invalidPathsGo, classifyEvents, walkErrorDiags_cons_entry]
    rw [invalidPathsGo_split cfg checks itd rest _ errs]
    simp [List.append_assoc]

/-! ## Claims -/

/-- C10: in the diagnostic stream produced by one diagnostic walk
(`invalid_paths`), every `Error` diagnostic arising from a traversal error is
emitted only after all classification diagnostics of that walk: the stream is
exactly the classification diagnostics of the walk entries followed by the
accumulated traversal-error diagnostics, never interleaved at the point of
failure. -/
theorem c10_errors_last (cfg : Config) (checks : Check)
    (itd : FastPath → Except PyErr (List String)) (events : List WalkEvent) :
    invalid_paths cfg checks itd events =
      classifyEvents cfg checks itd events [] ++ walkErrorDiags events := by
  rw [invalid_paths, invalidPathsGo_split cfg checks itd events [] [],
    List.append_nil]

/-- C4 counterexample: with only the `Empty` check requested, pass 3 computes
`run ^ Check.CHARACTERS` and so runs the `Characters` classification even
though it was not requested — it is not "the requested checks minus
`Characters`". -/
theorem c4_pass3_checks_counterexample :
    pass3Checks ⟨true, false, false⟩ = ⟨true, true, false⟩ ∧
      pass3Checks ⟨true, false, false⟩ ≠ specMinusCharacters ⟨true, false, false⟩ ∧
      (pass3Checks ⟨true, false, false⟩).characters = true := by
  decide

/-- C4 amended: pass 3 re-runs the diagnostic walk with the symmetric
difference of the requested checks and `Characters` (the `Characters` bit is
flipped, the other bits are kept); this coincides with "requested minus
`Characters`" exactly when `Characters` was requested, and otherwise ADDS the
`Characters` classification. -/
theorem c4_pass3_checks_amended :
    (∀ run : Check, pass3Checks run = ⟨run.empty, !run.characters, run.length⟩) ∧
      (∀ e l : Bool, pass3Checks ⟨e, true, l⟩ = specMinusCharacters ⟨e, true, l⟩) := by
  constructor
  · intro run
    obtain ⟨a, b, c⟩ := run
    simp [pass3Checks, Check.symmDiff, Check.CHARACTERS]
  · intro e l
    simp [pass3Checks, Check.symmDiff, Check.CHARACTERS, specMinusCharacters]

/-- C8 counterexample: the paths `/a` (absolute) and `./a` (relative) differ
in their `absolute` flag yet compare equal under `FastPath.__eq__`, and their
hash inputs differ — equality is not structural over (segments, absolute,
platform). -/
theorem c8_structural_eq_counterexample :
    FastPath.pyEq ⟨["a"], true⟩ ⟨["a"], false⟩ = true ∧
      (⟨["a"], true⟩ : FastPath) ≠ ⟨["a"], false⟩ ∧
      FastPath.hashKey ⟨["a"], true⟩ ≠ FastPath.hashKey ⟨["a"], false⟩ := by
  decide

/-- C8 amended: path-value equality is structural over the `segments`
component only — two path values compare equal exactly when their segment
sequences are equal, regardless of the `absolute` flag (the type carries no
platform tag); the hash, by contrast, is computed from the pair
(segments, absolute), so equal path values can feed different inputs to the
hash. -/
theorem c8_structural_eq_amended (p q : FastPath) :
    FastPath.pyEq p q = (p.segments == q.segments) ∧
      FastPath.hashKey p = (p.segments, p.absolute) := by
  constructor
  · unfold FastPath.pyEq
    by_cases h : p.segments = q.segments
    · simp [h]
    · simp [h]
  · rfl

/-- C3 counterexample: with dry-run off, an OS-level failure of EITHER
primitive terminates the fix run instead of becoming an `Error` diagnostic:
(a) a failing rmdir makes pass 3 on an `Empty` diagnostic followed by a
`Length` diagnostic abort — no `Error` diagnostic, the following entry never
processed; (b) a failing rename primitive makes pass 1 on a `Characters`
diagnostic followed by another abort the same way. -/
theorem c3_error_propagation_counterexample :
    pass3Run cfgBase rmFail [PathDiag.empty pb, PathDiag.length pa] =
      ([], 0, some (.osError "permission denied")) ∧
      pass1 cfgBase fsRenameFail
          [PathDiag.characters pab [(1, "b")], PathDiag.characters pa [(1, "x")]] =
        ([], some (.osError "permission denied")) := by
  decide

/-- C3 amended: an OS-level failure of the rename primitive (reached through
`safe_rename` in pass 1) or of the directory-remove primitive (pass 3) is NOT
caught and converted into an `Error` diagnostic: the exception propagates out
of the generator at the point of occurrence, processing of all remaining
entries is abandoned, and no diagnostic is emitted for the failure. -/
theorem c3_error_propagation_amended (cfg : Config) (fs : FsOps)
    (rmdirOp : FastPath → Except PyErr Unit) (p q : FastPath) (ms : List Span)
    (e1 e2 : PyErr) (restP restD : List PathDiag) (c : Nat)
    (hdry : cfg.dryRun = false)
    (hex : fs.pathExists (p.with_stem (applyMatches p.stem ms cfg.replacement)) = false)
    (hren : fs.renameOp p (p.with_stem (applyMatches p.stem ms cfg.replacement)) = .error e1)
    (hrm : rmdirOp q = .error e2) :
    pass1 cfg fs (PathDiag.characters p ms :: restP) = ([], some e1) ∧
      pass3 cfg rmdirOp (PathDiag.empty q :: restD) c = ([], c, some e2) := by
  constructor
  · have hsr : safe_rename fs cfg p (p.with_stem (applyMatches p.stem ms cfg.replacement)) =
        .error e1 := by
      unfold safe_rename
      rw [if_neg (by simp [hex])]
      unfold doRename
      rw [if_neg (by simp [hdry]), hren]
      rfl
    simp [pass1, hsr]
  · simp [pass3, hdry, hrm]

/-- C3 amended, witness at concrete inputs for both primitives. -/
theorem c3_error_propagation_amended_witness :
    pass1 cfgBase fsRenameFail (PathDiag.characters pab [(1, "b")] :: [PathDiag.length pa]) =
      ([], some (.osError "permission denied")) ∧
      pass3 cfgBase rmFail (PathDiag.empty pb :: [PathDiag.length pa]) 0 =
        ([], 0, some (.osError "permission denied")) :=
  c3_error_propagation_amended cfgBase fsRenameFail rmFail pab pb [(1, "b")]
    (.osError "permission denied") (.osError "permission denied")
    [PathDiag.length pa] [PathDiag.length pa] 0 (by decide) (by decide) (by decide)
    (by decide)

/-- C6 counterexample: a `NameLength` diagnostic (`PathFilenameLengthDiagnostic`)
produced by the diagnostic walk falls into pass 3's wildcard case: it is not
re-emitted and the unresolved counter stays at 0, contrary to the claim. -/
theorem c6_namelength_counterexample :
    pass3Run cfgBase rmOk [PathDiag.filenameLength pa] = ([], 0, none) ∧
      pass3Run cfgBase rmOk [PathDiag.filenameLength pa] ≠
        ([PathDiag.filenameLength pa], 1, none) := by
  decide

/-- C6 amended: fix-mode pass 3 re-emits exactly the `Empty` and `Length`
diagnostics of the walk; every `Length` diagnostic increments the unresolved
counter, while every `NameLength` diagnostic is silently discarded — neither
emitted nor counted (stated in dry-run mode so that the rmdir primitive is
never invoked). -/
theorem c6_pass3_emit_amended (cfg : Config)
    (rmdirOp : FastPath → Except PyErr Unit) (diags : List PathDiag) (c : Nat)
    (hdry : cfg.dryRun = true) :
    pass3 cfg rmdirOp diags c =
      (diags.filter keptInPass3, c + diags.countP isLengthDiag, none) := by
  induction diags generalizing c with
  | nil => simp [pass3]
  | cons d rest ih =>
    cases d with
    | empty p =>
      simp [pass3, hdry, ih, List.filter_cons, keptInPass3, List.countP_cons, isLengthDiag]
    | length p =>
      simp [pass3, ih (c + 1), List.filter_cons, List.countP_cons, keptInPass3,
        isLengthDiag, Prod.ext_iff]
      omega
    | characters p ms =>
      simp [pass3, ih, List.filter_cons, keptInPass3, List.countP_cons, isLengthDiag]
    | invalidName p =>
      simp [pass3, ih, List.filter_cons, keptInPass3, List.countP_cons, isLengthDiag]
    | renameMatch p np =>
      simp [pass3, ih, List.filter_cons, keptInPass3, List.countP_cons, isLengthDiag]
    | charactersReplace p np ms =>
      simp [pass3, ih, List.filter_cons, keptInPass3, List.countP_cons, isLengthDiag]
    | filenameLength p =>
      simp [pass3, ih, List.filter_cons, keptInPass3, List.countP_cons, isLengthDiag]
    | error p e =>
      simp [pass3, ih, List.filter_cons, keptInPass3, List.countP_cons, isLengthDiag]

/-- C6 amended, witness at a concrete input: a `Length` diagnostic is
re-emitted and counted, the `NameLength` diagnostic is dropped. -/
theorem c6_pass3_emit_amended_witness :
    pass3 cfgDry rmOk [PathDiag.filenameLength pa, PathDiag.length pb] 0 =
      ([PathDiag.length pb], 1, none) := by
  have h := c6_pass3_emit_amended cfgDry rmOk
    [PathDiag.filenameLength pa, PathDiag.length pb] 0 (by decide)
  rw [h]
  decide

/-- C1 counterexample: renaming `/d/a.txt` to the occupied `/d/b.txt` under
the `increment` policy: the glob scans for the OLD stem pattern `a(*).txt`,
finds nothing, and picks `n = 1`, producing `/d/b(1).txt` — but `/d/b(1).txt`
already exists, so `n = 1` is not unused (the smallest unused would be 2) and
the successful rename overwrites an existing entry. -/
theorem c1_increment_counterexample :
    safe_rename fsC1 cfgBase pa pb = .ok (true, pb1) ∧
      fsC1.pathExists pb1 = true ∧
      fsC1.pathExists ⟨["d", "b(2).txt"], true⟩ = false := by
  decide

/-- C1 amended: under the `increment` policy with an occupied destination, the
chosen number is `1 + max` of the integers extracted from the siblings
matching the OLD path's `stem(*)suffix` pattern (1 when there are none) — so
it is strictly greater than every extracted sibling number, but it is not the
smallest unused number for the target's own name family, and the resulting
path may itself collide with an existing entry, which the rename then
overwrites (stated in dry-run mode; a live run additionally requires the
rename primitive to succeed). -/
theorem c1_increment_amended (fs : FsOps) (cfg : Config) (path target : FastPath)
    (ns : List Int) (hex : fs.pathExists target = true)
    (hcol : cfg.collision = COLLISION.increment) (hdry : cfg.dryRun = true)
    (hns : ((fs.listNames path.parent).filter
        (fun n => globIncrMatch path.stem path.suffix n)).mapM extractNb = some ns) :
    safe_rename fs cfg path target =
      .ok (true, target.with_stem (target.stem ++ "(" ++ toString (pyMax0 ns + 1) ++ ")")) ∧
      ∀ k ∈ ns, k < pyMax0 ns + 1 := by
  constructor
  · unfold safe_rename
    rw [if_pos hex, if_neg (by simp [hcol]), hns]
    simp [doRename, hdry]
  · intro k hk
    have := mem_le_foldl_max ns 0 k hk
    unfold pyMax0
    omega

/-- C1 amended, witness: renaming `doc.txt` onto its own occupied name with
sibling `doc(2).txt` present yields `doc(3).txt`, and `3 > 2`. -/
theorem c1_increment_amended_witness :
    safe_rename fsDoc cfgDry pDoc pDoc =
      .ok (true, pDoc.with_stem (pDoc.stem ++ "(" ++ toString (pyMax0 [(2 : Int)] + 1) ++ ")")) ∧
      ∀ k ∈ [(2 : Int)], k < pyMax0 [(2 : Int)] + 1 :=
  c1_increment_amended fsDoc cfgDry pDoc pDoc [2] (by decide) (by decide) (by decide)
    (by decide)

/-- Diagnostics produced by the Empty block are `Error` or `Empty` ones. -/
theorem emptyBranch_mem (checks : Check) (itd : FastPath → Except PyErr (List String))
    (p : FastPath) (isDir : Bool) (memo : List String) (d : PathDiag)
    (h : d ∈ (emptyBranch checks itd p isDir memo).1) :
    (∃ e, d = PathDiag.error p e) ∨ d = PathDiag.empty p := by
  unfold emptyBranch at h
  by_cases hb : checks.empty && isDir
  · rw [if_pos hb] at h
    cases hit : itd p with
    | error e =>
      rw [hit] at h
      exact Or.inl ⟨e, by simpa using h⟩
    | ok subs =>
      rw [hit] at h
      simp only at h
      by_cases hemp : (is_empty_recurse subs p memo).1
      · rw [if_pos hemp] at h
        exact Or.inr (by simpa using h)
      · rw [if_neg hemp] at h
        exact absurd h (List.not_mem_nil d)
  · rw [if_neg hb] at h
    exact absurd h (List.not_mem_nil d)

/-- Diagnostics produced by the Length block are `NameLength` or `Length`
ones. -/
theorem lengthBranch_mem (cfg : Config) (checks : Check) (p : FastPath) (d : PathDiag)
    (h : d ∈ lengthBranch cfg checks p) :
    d = PathDiag.filenameLength p ∨ d = PathDiag.length p := by
  unfold lengthBranch at h
  by_cases hb : checks.length
  · rw [if_pos hb] at h
    rcases List.mem_append.mp h with h1 | h2
    · by_cases hc : p.name.length > cfg.maxNameLength
      · rw [if_pos hc] at h1
        exact Or.inl (by simpa using h1)
      · rw [if_neg hc] at h1
        exact absurd h1 (List.not_mem_nil d)
    · by_cases hc : path_len cfg p > cfg.maxPathLength
      · rw [if_pos hc] at h2
        exact Or.inr (by simpa using h2)
      · rw [if_neg hc] at h2
        exact absurd h2 (List.not_mem_nil d)
  · rw [if_neg hb] at h
    exact absurd h (List.not_mem_nil d)

/-- The Characters block yields `InvalidName` exactly when the invalid-name
pattern matches the STEM. -/
theorem charBranch_mem_invalidName (cfg : Config) (checks : Check) (p : FastPath)
    (hc : checks.characters = true) :
    PathDiag.invalidName p ∈ charBranch cfg checks p ↔ cfg.invalidNames p.stem = true := by
  unfold charBranch
  rw [hc]
  by_cases hn : cfg.invalidNames p.stem
  · simp [hn]
  · simp [hn]

/-- The Characters block yields `Characters p ms` exactly when `ms` is the
(nonempty) list of invalid-character matches over the STEM. -/
theorem charBranch_mem_characters (cfg : Config) (checks : Check) (p : FastPath)
    (ms : List Span) (hc : checks.characters = true) :
    PathDiag.characters p ms ∈ charBranch cfg checks p ↔
      (ms = cfg.invalidCharacters p.stem ∧ ms ≠ []) := by
  unfold charBranch
  rw [hc]
  constructor
  · intro h
    rcases List.mem_append.mp h with h1 | h2
    · by_cases hm : cfg.invalidCharacters p.stem ≠ []
      · rw [if_pos hm] at h1
        have heq : PathDiag.characters p ms =
            PathDiag.characters p (cfg.invalidCharacters p.stem) :=
          List.mem_singleton.mp h1
        have hms : ms = cfg.invalidCharacters p.stem := by
          injection heq with h2 h3
        exact ⟨hms, hms ▸ hm⟩
      · rw [if_neg hm] at h1
        exact absurd h1 (List.not_mem_nil _)
    · by_cases hn : cfg.invalidNames p.stem
      · rw [if_pos hn] at h2
        exact absurd (List.mem_singleton.mp h2) (by simp)
      · rw [if_neg hn] at h2
        exact absurd h2 (List.not_mem_nil _)
  · rintro ⟨rfl, hne⟩
    exact List.mem_append.mpr (Or.inl (by
      rw [if_pos hne]
      exact List.mem_singleton.mpr rfl))

/-- C5 counterexample: with an invalid-name pattern matching exactly `"CON"`,
classifying the file `/CON.txt` yields `InvalidName` although the pattern
does NOT match the full name `CON.txt` — it was matched against the stem
`CON`, not against the full name as the claim states. -/
theorem c5_invalid_name_counterexample :
    (check_valid_file cfg5 ⟨false, true, false⟩ (fun _ => .ok []) pcon false []).1 =
      [PathDiag.invalidName pcon] ∧
      cfg5.invalidNames pcon.name = false ∧
      cfg5.invalidNames pcon.stem = true := by
  decide

/-- C5 amended: when the Characters check classifies a non-excluded path, the
invalid-character pattern is run over the stem only and `Characters(path,
matches)` is yielded exactly when the (stem) match list is nonempty; the
invalid-full-name pattern is matched against the STEM as well (not the full
name), and `InvalidName(path)` is yielded exactly when the stem matches. -/
theorem c5_characters_amended (cfg : Config) (checks : Check)
    (itd : FastPath → Except PyErr (List String)) (p : FastPath) (isDir : Bool)
    (memo : List String) (hc : checks.characters = true)
    (hex : isExcluded cfg p = false) :
    (PathDiag.invalidName p ∈ (check_valid_file cfg checks itd p isDir memo).1 ↔
      cfg.invalidNames p.stem = true) ∧
    ∀ ms : List Span,
      PathDiag.characters p ms ∈ (check_valid_file cfg checks itd p isDir memo).1 ↔
        (ms = cfg.invalidCharacters p.stem ∧ ms ≠ []) := by
  have hout : (check_valid_file cfg checks itd p isDir memo).1 =
      (emptyBranch checks itd p isDir memo).1 ++ charBranch cfg checks p ++
        lengthBranch cfg checks p := by
    unfold check_valid_file
    rw [if_neg (by simp [hex])]
  constructor
  · rw [hout]
    simp only [List.mem_append]
    constructor
    · rintro ((h1 | h2) | h3)
      · rcases emptyBranch_mem checks itd p isDir memo _ h1 with ⟨e, he⟩ | he
        · exact absurd he (by simp)
        · exact absurd he (by simp)
      · exact (charBranch_mem_invalidName cfg checks p hc).mp h2
      · rcases lengthBranch_mem cfg checks p _ h3 with he | he
        · exact absurd he (by simp)
        · exact absurd he (by simp)
    · intro hn
      exact Or.inl (Or.inr ((charBranch_mem_invalidName cfg checks p hc).mpr hn))
  · intro ms
    rw [hout]
    simp only [List.mem_append]
    constructor
    · rintro ((h1 | h2) | h3)
      · rcases emptyBranch_mem checks itd p isDir memo _ h1 with ⟨e, he⟩ | he
        · exact absurd he (by simp)
        · exact absurd he (by simp)
      · exact (charBranch_mem_characters cfg checks p ms hc).mp h2
      · rcases lengthBranch_mem cfg checks p _ h3 with he | he
        · exact absurd he (by simp)
        · exact absurd he (by simp)
    · intro hn
      exact Or.inl (Or.inr ((charBranch_mem_characters cfg checks p ms hc).mpr hn))

/-- C5 amended, witness at the concrete file `/CON.txt`. -/
theorem c5_characters_amended_witness :
    (PathDiag.invalidName pcon ∈
        (check_valid_file cfg5 ⟨false, true, false⟩ (fun _ => .ok []) pcon false []).1 ↔
      cfg5.invalidNames pcon.stem = true) ∧
    ∀ ms : List Span,
      PathDiag.characters pcon ms ∈
          (check_valid_file cfg5 ⟨false, true, false⟩ (fun _ => .ok []) pcon false []).1 ↔
        (ms = cfg5.invalidCharacters pcon.stem ∧ ms ≠ []) :=
  c5_characters_amended cfg5 ⟨false, true, false⟩ (fun _ => .ok []) pcon false []
    (by decide) (by decide)

/-- C9 counterexample: with replacement string `"."`, fixing the
extension-less name `/ab` (match on `b`) emits
`CharactersFixed(/ab, /a.)` whose new path has suffix `"."` while the old
path's suffix is `""` — the pass can change the suffix. -/
theorem c9_suffix_counterexample :
    pass1 cfg9 fs9 [PathDiag.characters pab [(1, "b")]] =
      ([PathDiag.charactersReplace pab ⟨["a."], true⟩ [(1, "b")]], none) ∧
      FastPath.suffix pab = "" ∧
      FastPath.suffix ⟨["a."], true⟩ = "." := by
  decide

/-- C9 amended: for every `CharactersFixed(old, new)` diagnostic emitted by
the character-cleanup pass, IF the old path's suffix is nonempty then the new
path keeps exactly that suffix (including through the `increment` collision
stem adjustment); only an extension-less name rewritten with a replacement
that introduces a dot can gain a new suffix. -/
theorem c9_suffix_amended (cfg : Config) (fs : FsOps) (diags : List PathDiag)
    (old np : FastPath) (ms : List Span)
    (hmem : PathDiag.charactersReplace old np ms ∈ (pass1 cfg fs diags).1)
    (hsuf : old.suffix ≠ "") : np.suffix = old.suffix := by
  induction diags with
  | nil => simp [pass1] at hmem
  | cons d rest ih =>
    cases d with
    | characters p ms2 =>
      simp only [pass1] at hmem
      cases hsr : safe_rename fs cfg p (p.with_stem (applyMatches p.stem ms2 cfg.replacement)) with
      | error e =>
        rw [hsr] at hmem
        simp at hmem
      | ok pr =>
        obtain ⟨success, np2⟩ := pr
        cases success with
        | true =>
          rw [hsr] at hmem
          simp only [List.mem_cons, PathDiag.charactersReplace.injEq] at hmem
          rcases hmem with ⟨hop, hnp, _⟩ | htail
          · subst hop
            subst hnp
            rcases safe_rename_ok_target fs cfg old _ np hsr with h | ⟨n, h⟩
            · rw [h]
              exact with_stem_suffix old _ hsuf
            · rw [h, with_stem_suffix _ _ (by rw [with_stem_suffix old _ hsuf]; exact hsuf)]
              exact with_stem_suffix old _ hsuf
          · exact ih htail
        | false =>
          rw [hsr] at hmem
          simp only [List.mem_cons] at hmem
          rcases hmem with hop | htail
          · exact absurd hop (by simp)
          · exact ih htail
    | invalidName p =>
      simp only [pass1] at hmem
      exact ih hmem
    | renameMatch p npx =>
      simp only [pass1] at hmem
      exact ih hmem
    | charactersReplace p npx msx =>
      simp only [pass1] at hmem
      exact ih hmem
    | length p =>
      simp only [pass1] at hmem
      exact ih hmem
    | filenameLength p =>
      simp only [pass1] at hmem
      exact ih hmem
    | empty p =>
      simp only [pass1] at hmem
      exact ih hmem
    | error p e =>
      simp only [pass1] at hmem
      exact ih hmem

/-- C9 amended, witness: fixing `/ab.txt` with replacement `"."` gives
`/a..txt`, whose suffix `.txt` equals the original suffix. -/
theorem c9_suffix_amended_witness :
    FastPath.suffix (⟨["a..txt"], true⟩ : FastPath) = FastPath.suffix pabt :=
  c9_suffix_amended cfg9 fs9 [PathDiag.characters pabt [(1, "b")]] pabt
    ⟨["a..txt"], true⟩ [(1, "b")] (by decide) (by decide)

theorem string_ne_of_data_ne (a b : String) (h : a.data ≠ b.data) : a ≠ b :=
  fun hq => h (congrArg String.data hq)

theorem head?_mem {α : Type} (l : List α) (x : α) (h : l.head? = some x) : x ∈ l := by
  cases l with
  | nil => exact Option.noConfusion h
  | cons a t =>
    injection h with h2
    exact h2 ▸ List.mem_cons_self a t

theorem getLast?_mem {α : Type} (l : List α) (x : α) (h : l.getLast? = some x) :
    x ∈ l := by
  have hx : x ∈ l.getLast? := Option.mem_def.mpr h
  obtain ⟨hne, heq⟩ := List.mem_getLast?_eq_getLast hx
  rw [heq]
  exact List.getLast_mem hne

theorem dropDotSlash_of_head_not_dot (a b : Char) (rest : List Char)
    (h : ¬(a = '.' ∧ b = '/')) : dropDotSlash (a :: b :: rest) = a :: b :: rest := by
  simp [dropDotSlash, h]

theorem dropDotSlash_dotSlash (rest : List Char) :
    dropDotSlash ('.' :: '/' :: rest) = rest := by
  simp [dropDotSlash]

theorem mapped_segments_ne_nil (s : String) (hs : s ≠ "") : s.data ≠ [] :=
  fun hq => hs (String.ext hq)

theorem dropDotSlash_slash (xs : List Char) : dropDotSlash ('/' :: xs) = '/' :: xs := by
  cases xs with
  | nil => rfl
  | cons b r =>
    exact dropDotSlash_of_head_not_dot '/' b r (by
      rintro ⟨h1, _⟩
      exact absurd h1 (by decide))

theorem pyStrip_joinChar_segments (segs : List String)
    (hW : ∀ x ∈ segs, segWf x) (hne : segs ≠ []) :
    pyStrip '/' (joinChar '/' (segs.map String.data)) =
      joinChar '/' (segs.map String.data) := by
  cases segs with
  | nil => exact absurd rfl hne
  | cons s rest =>
    apply pyStrip_eq_self
    · intro x hx
      rw [List.map_cons, joinChar_head? '/' s.data (rest.map String.data)
        (mapped_segments_ne_nil s (hW s (List.mem_cons_self s rest)).1)] at hx
      intro hq
      exact (hW s (List.mem_cons_self s rest)).2.2 (hq ▸ head?_mem s.data x hx)
    · intro x hx
      obtain ⟨d, hdmem, hdlast⟩ := joinChar_getLast?_mem '/' ((s :: rest).map String.data)
        (by
          intro d hd
          obtain ⟨y, hy, rfl⟩ := List.mem_map.mp hd
          exact mapped_segments_ne_nil y (hW y hy).1)
        (by simp)
      rw [hdlast] at hx
      obtain ⟨y, hy, rfl⟩ := List.mem_map.mp hdmem
      intro hq
      exact (hW y hy).2.2 (hq ▸ getLast?_mem y.data x hx)

theorem get_segments_of_joined (segs : List String)
    (hW : ∀ x ∈ segs, segWf x) (hne : segs ≠ []) :
    ((pySplit '/' (joinChar '/' (segs.map String.data))).map
        (fun cs => String.mk cs)).filter (fun s => s != "" && s != ".") = segs := by
  rw [pySplit_joinChar (segs.map String.data)
    (by
      intro d hd
      obtain ⟨y, hy, rfl⟩ := List.mem_map.mp hd
      exact (hW y hy).2.2)
    (by
      intro hq
      exact hne (List.map_eq_nil_iff.mp hq))]
  have hback : (segs.map String.data).map (fun cs => String.mk cs) = segs := by
    rw [List.map_map]
    have : ((fun cs => String.mk cs) ∘ String.data) = id := by
      funext x
      rfl
    rw [this, List.map_id]
  rw [hback]
  apply List.filter_eq_self.mpr
  intro a ha
  obtain ⟨h1, h2, _⟩ := hW a ha
  simp only [Bool.and_eq_true, bne_iff_ne, ne_eq]
  exact ⟨h1, h2⟩

theorem str_data_cons_abs (s : String) (rest : List String) :
    (FastPath.str ⟨s :: rest, true⟩).data =
      '/' :: joinChar '/' ((s :: rest).map String.data) := by
  unfold FastPath.str
  rw [if_neg (by simp)]
  rfl

theorem str_data_cons_rel (s : String) (rest : List String) :
    (FastPath.str ⟨s :: rest, false⟩).data =
      '.' :: '/' :: joinChar '/' ((s :: rest).map String.data) := by
  unfold FastPath.str
  rw [if_neg (by simp)]
  rfl

theorem from_str_str (p : FastPath) (h : p.Wf) : FastPath.from_str p.str = p := by
  obtain ⟨segs, abs⟩ := p
  cases segs with
  | nil =>
    cases abs with
    | false => decide
    | true => decide
  | cons s rest =>
    have hWf : ∀ x ∈ s :: rest, segWf x := h
    have hsd : s.data ≠ [] :=
      mapped_segments_ne_nil s (hWf s (List.mem_cons_self s rest)).1
    have hJ : joinChar '/' ((s :: rest).map String.data) ≠ [] := by
      rw [List.map_cons]
      exact joinChar_ne_nil '/' s.data (rest.map String.data) hsd
    cases abs with
    | true =>
      have hd := str_data_cons_abs s rest
      have hne1 : (FastPath.str ⟨s :: rest, true⟩) ≠ "/" := by
        apply string_ne_of_data_ne
        rw [hd]
        intro hq
        injection hq with _ h2
        exact hJ h2
      have hne2 : (FastPath.str ⟨s :: rest, true⟩) ≠ "." := by
        apply string_ne_of_data_ne
        rw [hd]
        intro hq
        injection hq with h1 _
        exact absurd h1 (by decide)
      unfold FastPath.from_str
      rw [if_neg hne1, if_neg hne2]
      have hseg : get_segments (FastPath.str ⟨s :: rest, true⟩) = s :: rest := by
        unfold get_segments
        rw [hd, dropDotSlash_slash, pyStrip_slash_cons,
          pyStrip_joinChar_segments _ hWf (by simp),
          get_segments_of_joined _ hWf (by simp)]
      have habs : decide ((FastPath.str ⟨s :: rest, true⟩).data.head? = some '/') = true := by
        simp [hd]
      rw [hseg, habs]
    | false =>
      have hd := str_data_cons_rel s rest
      have hne1 : (FastPath.str ⟨s :: rest, false⟩) ≠ "/" := by
        apply string_ne_of_data_ne
        rw [hd]
        intro hq
        injection hq with h1 _
        exact absurd h1 (by decide)
      have hne2 : (FastPath.str ⟨s :: rest, false⟩) ≠ "." := by
        apply string_ne_of_data_ne
        rw [hd]
        intro hq
        injection hq with _ h2
        exact List.noConfusion h2
      unfold FastPath.from_str
      rw [if_neg hne1, if_neg hne2]
      have hseg : get_segments (FastPath.str ⟨s :: rest, false⟩) = s :: rest := by
        unfold get_segments
        rw [hd, dropDotSlash_dotSlash,
          pyStrip_joinChar_segments _ hWf (by simp),
          get_segments_of_joined _ hWf (by simp)]
      have habs : decide ((FastPath.str ⟨s :: rest, false⟩).data.head? = some '/') = false := by
        simp [hd]
      rw [hseg, habs]

/-- C7: for every well-formed path value `p` (the data-model invariant:
separator-free segments, none empty, none `"."`), parsing the rendered string
form gives back `p` exactly (segments AND absolute flag, hence also under the
code's segments-only `==`); joining with the no-op segment `"."` returns `p`
unchanged; and joining with the root-denoting operand `"/"` yields the
absolute root. -/
theorem c7_roundtrip (p : FastPath) (h : p.Wf) :
    FastPath.from_str p.str = p ∧ p.div "." = p ∧ p.div "/" = ⟨[], true⟩ := by
  refine ⟨from_str_str p h, ?_, ?_⟩
  · unfold FastPath.div
    rw [if_neg (by decide), show get_segments "." = [] from by decide,
      List.append_nil]
  · unfold FastPath.div
    rw [if_pos rfl]

/-- C7 witness at the concrete path `/foo/bar.txt`. -/
theorem c7_roundtrip_witness :
    FastPath.Wf ⟨["foo", "bar.txt"], true⟩ ∧
      (FastPath.from_str (FastPath.str ⟨["foo", "bar.txt"], true⟩) =
          ⟨["foo", "bar.txt"], true⟩ ∧
        FastPath.div ⟨["foo", "bar.txt"], true⟩ "." = ⟨["foo", "bar.txt"], true⟩ ∧
        FastPath.div ⟨["foo", "bar.txt"], true⟩ "/" = ⟨[], true⟩) :=
  ⟨by decide, c7_roundtrip ⟨["foo", "bar.txt"], true⟩ (by decide)⟩

/-- C2: on the tree `/b` whose single child is the empty directory `/b/d`, the
post-order diagnostic walk with the `Empty` check reports `Empty(/b/d)` but
NOT `Empty(/b)`: the memo records the full path string `"/b/d"` while
`iterdir` yields the bare name `"d"`, so the membership test never succeeds
and transitive emptiness is lost (the spec and the claim require `Empty(/b)`
to be reported as well). -/
theorem c2_empty_memo_code_eval :
    invalid_paths cfgBase ⟨true, false, false⟩ (treeIterdir root2 tree2)
        (walk_all root2 tree2) =
      [PathDiag.empty ⟨["b", "d"], true⟩] ∧
      PathDiag.empty ⟨["b"], true⟩ ∉
        invalid_paths cfgBase ⟨true, false, false⟩ (treeIterdir root2 tree2)
          (walk_all root2 tree2) := by
  decide

end Earchive
